import Mathlib

/-!
Verification of the `globalsend-crypto` crate
(`src/crates/globalsend-crypto/src/lib.rs`).

Bytes are modelled as `List Nat` (each entry a value below 256), 32-bit
words as `Nat` reduced modulo `2 ^ 32`, and fallible operations return
`Option`. The crate's own logic (nonce construction, key/nonce split,
HKDF invocation) is translated directly from the source; the external
primitives it calls (XChaCha20-Poly1305, HKDF-SHA256, X25519) are not
under `src/` and are modelled from their specifications (RFC 8439 and
the XChaCha draft, RFC 5869 / FIPS 180-4, RFC 7748).
-/

namespace Globalsend

/-- Reduce a natural number to a 32-bit word. -/
def w32 (x : Nat) : Nat := x % 4294967296

/-- Rotate a 32-bit word left by `n` bits. -/
def rotl (x n : Nat) : Nat := w32 (x <<< n) ||| (x % 4294967296) >>> (32 - n)

/-- Rotate a 32-bit word right by `n` bits. -/
def rotr (x n : Nat) : Nat := (x % 4294967296) >>> n ||| w32 (x <<< (32 - n))

/-- Big-endian byte encoding of `c` into `n` bytes (truncating above `2 ^ (8 * n)`),
modelling Rust's `u64::to_be_bytes` when `n = 8`. -/
def toBEBytes : Nat → Nat → List Nat
  | 0, _ => []
  | n + 1, c => toBEBytes n (c >>> 8) ++ [c % 256]

/-- The natural number denoted by a big-endian byte string. -/
def beNum (l : List Nat) : Nat := l.foldl (fun a b => a * 256 + b) 0

/-- The natural number denoted by a little-endian byte string. -/
def leNum (l : List Nat) : Nat := l.foldr (fun b a => b + 256 * a) 0

/-- Little-endian serialization of a 32-bit word into 4 bytes. -/
def wordLEBytes (w : Nat) : List Nat :=
  [w % 256, w >>> 8 % 256, w >>> 16 % 256, w >>> 24 % 256]

/-- Big-endian serialization of a 32-bit word into 4 bytes. -/
def wordBEBytes (w : Nat) : List Nat :=
  [w >>> 24 % 256, w >>> 16 % 256, w >>> 8 % 256, w % 256]

/-- The `i`-th little-endian 32-bit word of a byte string (missing bytes read as 0). -/
def leWord (bytes : List Nat) (i : Nat) : Nat :=
  bytes.getD (4 * i) 0 + 256 * bytes.getD (4 * i + 1) 0 +
    65536 * bytes.getD (4 * i + 2) 0 + 16777216 * bytes.getD (4 * i + 3) 0

/-- The `i`-th big-endian 32-bit word of a byte string (missing bytes read as 0). -/
def beWord (bytes : List Nat) (i : Nat) : Nat :=
  16777216 * bytes.getD (4 * i) 0 + 65536 * bytes.getD (4 * i + 1) 0 +
    256 * bytes.getD (4 * i + 2) 0 + bytes.getD (4 * i + 3) 0

/-- Split a list into chunks of `n` elements (the last chunk may be shorter). -/
def chunks (n : Nat) : List α → List (List α)
  | [] => []
  | x :: xs =>
    if h : n = 0 then [] else (x :: xs).take n :: chunks n ((x :: xs).drop n)
  termination_by l => l.length
  decreasing_by simp [List.length_drop]; omega

/-- Pointwise XOR of two byte strings (truncated to the shorter length). -/
def xorBytes (a b : List Nat) : List Nat := List.zipWith Nat.xor a b

/-!
ChaCha20 (RFC 8439 section 2.3) and HChaCha20 (draft-irtf-cfrg-xchacha
section 2.2). Modelled from the spec: the `chacha20` crate used by
`XChaCha20Poly1305` is not under `src/`.
-/

/-- One ChaCha20 quarter round acting on state positions `ia ib ic jd`. -/
def quarterRound (st : List Nat) (ia ib ic jd : Nat) : List Nat :=
  let a := st.getD ia 0
  let b := st.getD ib 0
  let c := st.getD ic 0
  let d := st.getD jd 0
  let a1 := w32 (a + b)
  let d1 := rotl (Nat.xor d a1) 16
  let c1 := w32 (c + d1)
  let b1 := rotl (Nat.xor b c1) 12
  let a2 := w32 (a1 + b1)
  let d2 := rotl (Nat.xor d1 a2) 8
  let c2 := w32 (c1 + d2)
  let b2 := rotl (Nat.xor b1 c2) 7
  (((st.set ia a2).set ib b2).set ic c2).set jd d2

/-- A ChaCha20 double round: four column rounds then four diagonal rounds. -/
def doubleRound (st : List Nat) : List Nat :=
  let s1 := quarterRound st 0 4 8 12
  let s2 := quarterRound s1 1 5 9 13
  let s3 := quarterRound s2 2 6 10 14
  let s4 := quarterRound s3 3 7 11 15
  let s5 := quarterRound s4 0 5 10 15
  let s6 := quarterRound s5 1 6 11 12
  let s7 := quarterRound s6 2 7 8 13
  quarterRound s7 3 4 9 14

/-- The 16-word initial ChaCha20 state for a key, a block counter and a 12-byte nonce. -/
def initState (key : List Nat) (ctr : Nat) (nonce : List Nat) : List Nat :=
  [1634760805, 857760878, 2036477234, 1797285236,
   leWord key 0, leWord key 1, leWord key 2, leWord key 3,
   leWord key 4, leWord key 5, leWord key 6, leWord key 7,
   w32 ctr, leWord nonce 0, leWord nonce 1, leWord nonce 2]

/-- The 64-byte output of the ChaCha20 block function. -/
def chachaBlockBytes (key : List Nat) (ctr : Nat) (nonce : List Nat) : List Nat :=
  let st := initState key ctr nonce
  let z := doubleRound^[10] st
  ((List.zipWith (fun a b => w32 (a + b)) z st).map wordLEBytes).flatten

/-- The concatenation of `n` 64-byte ChaCha20 keystream blocks from block counter `ctr`. -/
def chachaBlocks (key : List Nat) (ctr : Nat) (nonce : List Nat) : Nat → List Nat
  | 0 => []
  | n + 1 => chachaBlockBytes key ctr nonce ++ chachaBlocks key (w32 (ctr + 1)) nonce n

/-- The first `len` ChaCha20 keystream bytes starting at block counter `ctr`. -/
def keystreamBytes (key : List Nat) (ctr : Nat) (nonce : List Nat) (len : Nat) : List Nat :=
  (chachaBlocks key ctr nonce ((len + 63) / 64)).take len

/-- HChaCha20: derive a 32-byte subkey from a key and a 16-byte nonce
(20 ChaCha rounds, no final addition; output words 0-3 and 12-15). -/
def hchacha20 (key nonce16 : List Nat) : List Nat :=
  let st := [1634760805, 857760878, 2036477234, 1797285236,
    leWord key 0, leWord key 1, leWord key 2, leWord key 3,
    leWord key 4, leWord key 5, leWord key 6, leWord key 7,
    leWord nonce16 0, leWord nonce16 1, leWord nonce16 2, leWord nonce16 3]
  let z := doubleRound^[10] st
  ([z.getD 0 0, z.getD 1 0, z.getD 2 0, z.getD 3 0,
    z.getD 12 0, z.getD 13 0, z.getD 14 0, z.getD 15 0].map wordLEBytes).flatten

/-!
Poly1305 (RFC 8439 section 2.5). Modelled from the spec: the `poly1305`
crate is not under `src/`.
-/

/-- Clamping of the Poly1305 `r` value. -/
def polyClampR (r : Nat) : Nat := r &&& 0x0ffffffc0ffffffc0ffffffc0fffffff

/-- The Poly1305 prime `2 ^ 130 - 5`. -/
def polyP : Nat := 2 ^ 130 - 5

/-- The 16-byte Poly1305 MAC of `msg` under a 32-byte one-time key. -/
def poly1305 (key msg : List Nat) : List Nat :=
  let r := polyClampR (leNum (key.take 16))
  let s := leNum ((key.drop 16).take 16)
  let acc := (chunks 16 msg).foldl (fun acc c => (acc + leNum (c ++ [1])) * r % polyP) 0
  (List.range 16).map (fun i => (acc + s) >>> (8 * i) % 256)

/-!
The ChaCha20-Poly1305 and XChaCha20-Poly1305 AEAD constructions
(RFC 8439 section 2.8; draft-irtf-cfrg-xchacha). Modelled from the spec:
the `chacha20poly1305` crate is not under `src/`.
-/

/-- Pad a byte string with zeros up to the next multiple of 16 bytes. -/
def pad16 (l : List Nat) : List Nat := l ++ List.replicate ((16 - l.length % 16) % 16) 0

/-- Little-endian 8-byte encoding of a length. -/
def le64 (n : Nat) : List Nat := (List.range 8).map (fun i => n >>> (8 * i) % 256)

/-- The Poly1305 input authenticated by the AEAD: padded AAD, padded
ciphertext body, and their lengths. -/
def macData (aad body : List Nat) : List Nat :=
  pad16 aad ++ pad16 body ++ le64 aad.length ++ le64 body.length

/-- ChaCha20-Poly1305 encryption with a 12-byte nonce: ciphertext body
followed by the 16-byte tag. -/
def ietfSeal (key nonce aad pt : List Nat) : List Nat :=
  let polyKey := (chachaBlockBytes key 0 nonce).take 32
  let body := xorBytes pt (keystreamBytes key 1 nonce pt.length)
  body ++ poly1305 polyKey (macData aad body)

/-- ChaCha20-Poly1305 decryption with a 12-byte nonce: verifies the tag
before releasing any plaintext; `none` on any failure. -/
def ietfOpen (key nonce aad ct : List Nat) : Option (List Nat) :=
  if ct.length < 16 then none
  else
    let polyKey := (chachaBlockBytes key 0 nonce).take 32
    let body := ct.take (ct.length - 16)
    let tag := ct.drop (ct.length - 16)
    if poly1305 polyKey (macData aad body) = tag then
      some (xorBytes body (keystreamBytes key 1 nonce body.length))
    else none

/-- XChaCha20-Poly1305 encryption with a 24-byte nonce: HChaCha20 subkey
from the leading 16 nonce bytes, then ChaCha20-Poly1305 with the 12-byte
nonce made of 4 zero bytes and the trailing 8 nonce bytes. -/
def xaeadSeal (key nonce24 aad pt : List Nat) : List Nat :=
  ietfSeal (hchacha20 key (nonce24.take 16)) ([0, 0, 0, 0] ++ (nonce24.drop 16).take 8) aad pt

/-- XChaCha20-Poly1305 decryption with a 24-byte nonce. -/
def xaeadOpen (key nonce24 aad ct : List Nat) : Option (List Nat) :=
  ietfOpen (hchacha20 key (nonce24.take 16)) ([0, 0, 0, 0] ++ (nonce24.drop 16).take 8) aad ct

/-!
SHA-256 (FIPS 180-4), HMAC-SHA256 (RFC 2104) and HKDF (RFC 5869).
Modelled from the spec: the `sha2` and `hkdf` crates are not under `src/`.
-/

/-- The 64 SHA-256 round constants (FIPS 180-4 section 4.2.2), written in
decimal: 0x428a2f98 is 1116352408, and so on through 0xc67178f2. -/
def sha256K : List Nat :=
  [1116352408, 1899447441, 3049323471, 3921009573, 961987163,
   1508970993, 2453635748, 2870763221, 3624381080, 310598401,
   607225278, 1426881987, 1925078388, 2162078206, 2614888103,
   3248222580, 3835390401, 4022224774, 264347078, 604807628,
   770255983, 1249150122, 1555081692, 1996064986, 2554220882,
   2821834349, 2952996808, 3210313671, 3336571891, 3584528711,
   113926993, 338241895, 666307205, 773529912, 1294757372,
   1396182291, 1695183700, 1986661051, 2177026350, 2456956037,
   2730485921, 2820302411, 3259730800, 3345764771, 3516065817,
   3600352804, 4094571909, 275423344, 430227734, 506948616,
   659060556, 883997877, 958139571, 1322822218, 1537002063,
   1747873779, 1955562222, 2024104815, 2227730452, 2361852424,
   2428436474, 2756734187, 3204031479, 3329325298]

/-- The SHA-256 initial hash value (FIPS 180-4 section 5.3.3), in decimal:
0x6a09e667 is 1779033703, and so on through 0x5be0cd19. -/
def sha256Init : List Nat :=
  [1779033703, 3144134277, 1013904242, 2773480762,
   1359893119, 2600822924, 528734635, 1541459225]

/-- The SHA-256 message-schedule function sigma0. -/
def ssig0 (x : Nat) : Nat := Nat.xor (Nat.xor (rotr x 7) (rotr x 18)) ((x % 4294967296) >>> 3)

/-- The SHA-256 message-schedule function sigma1. -/
def ssig1 (x : Nat) : Nat := Nat.xor (Nat.xor (rotr x 17) (rotr x 19)) ((x % 4294967296) >>> 10)

/-- The SHA-256 compression function Sigma0. -/
def bsig0 (x : Nat) : Nat := Nat.xor (Nat.xor (rotr x 2) (rotr x 13)) (rotr x 22)

/-- The SHA-256 compression function Sigma1. -/
def bsig1 (x : Nat) : Nat := Nat.xor (Nat.xor (rotr x 6) (rotr x 11)) (rotr x 25)

/-- One SHA-256 compression step over a 64-byte block, updating the 8-word hash. -/
def shaCompress (h : List Nat) (block : List Nat) : List Nat :=
  let ws0 := (List.range 16).map (fun i => beWord block i)
  let ws := (List.range 48).foldl (fun ws _ =>
    let n := ws.length
    ws ++ [w32 (ws.getD (n - 16) 0 + ssig0 (ws.getD (n - 15) 0) +
      ws.getD (n - 7) 0 + ssig1 (ws.getD (n - 2) 0))]) ws0
  let st := (List.range 64).foldl (fun st i =>
    let a := st.getD 0 0
    let b := st.getD 1 0
    let c := st.getD 2 0
    let d := st.getD 3 0
    let e := st.getD 4 0
    let f := st.getD 5 0
    let g := st.getD 6 0
    let hh := st.getD 7 0
    let ch := Nat.xor (e &&& f) (Nat.xor e 0xffffffff &&& g)
    let maj := Nat.xor (Nat.xor (a &&& b) (a &&& c)) (b &&& c)
    let t1 := w32 (hh + bsig1 e + ch + sha256K.getD i 0 + ws.getD i 0)
    let t2 := w32 (bsig0 a + maj)
    [w32 (t1 + t2), a, b, c, w32 (d + t1), e, f, g]) h
  List.zipWith (fun a b => w32 (a + b)) h st

/-- SHA-256 padding: append `0x80`, zeros, and the 8-byte big-endian bit length. -/
def shaPad (msg : List Nat) : List Nat :=
  msg ++ [0x80] ++ List.replicate ((119 - msg.length % 64) % 64) 0 ++ toBEBytes 8 (8 * msg.length)

/-- The 32-byte SHA-256 digest of a byte string. -/
def sha256 (msg : List Nat) : List Nat :=
  (((chunks 64 (shaPad msg)).foldl shaCompress sha256Init).map wordBEBytes).flatten

/-- HMAC-SHA256 of `msg` under `key` (keys longer than 64 bytes are hashed first). -/
def hmacSha256 (key msg : List Nat) : List Nat :=
  let k0 := if 64 < key.length then sha256 key else key
  let k := k0 ++ List.replicate (64 - k0.length) 0
  sha256 (k.map (Nat.xor 0x5c) ++ sha256 (k.map (Nat.xor 0x36) ++ msg))

/-- HKDF-Extract with no salt, as performed by `Hkdf::new(None, ikm)` in
`derive_aead`: the salt defaults to a hash-length string of zeros. -/
def hkdfExtract (ikm : List Nat) : List Nat := hmacSha256 (List.replicate 32 0) ikm

/-- The concatenation `T(i) ++ T(i+1) ++ ...` of `n` HKDF-Expand output blocks,
where `prev` is the previous block `T(i-1)`. -/
def hkdfBlocks (prk info prev : List Nat) (i : Nat) : Nat → List Nat
  | 0 => []
  | n + 1 =>
    let t := hmacSha256 prk (prev ++ info ++ [i % 256])
    t ++ hkdfBlocks prk info t (i + 1) n

/-- HKDF-Expand: `none` exactly when more than `255 * 32` output bytes are
requested (the error `derive_aead` turns into a panic via `expect`). -/
def hkdfExpand (prk info : List Nat) (len : Nat) : Option (List Nat) :=
  if 255 * 32 < len then none
  else some ((hkdfBlocks prk info [] 1 ((len + 31) / 32)).take len)

/-!
The `globalsend-crypto` crate itself, translated from
`src/crates/globalsend-crypto/src/lib.rs`.
-/

/-- Rust constant `AEAD_KEY_LEN`. -/
def AEAD_KEY_LEN : Nat := 32

/-- Rust constant `AEAD_NONCE_LEN` (XChaCha20 nonce length). -/
def AEAD_NONCE_LEN : Nat := 24

/-- The per-message nonce computation inlined identically in `aead_encrypt`
(lines 63-70) and `aead_decrypt` (lines 78-84): copy the base nonce, then
XOR the big-endian bytes of the 64-bit counter into its last 8 bytes. -/
def next_nonce (base_nonce : List Nat) (counter : Nat) : List Nat :=
  base_nonce.take (AEAD_NONCE_LEN - 8) ++
    List.zipWith Nat.xor (base_nonce.drop (AEAD_NONCE_LEN - 8)) (toBEBytes 8 counter)

/-- Rust `aead_encrypt`: derive the per-message nonce, then XChaCha20-Poly1305
encrypt the plaintext with the AAD bound into the tag. -/
def aead_encrypt (key base_nonce : List Nat) (counter : Nat) (aad plaintext : List Nat) :
    List Nat :=
  xaeadSeal key (next_nonce base_nonce counter) aad plaintext

/-- Rust `aead_decrypt`: derive the same per-message nonce, then XChaCha20-Poly1305
decrypt; `none` models the `aead::Error` result. -/
def aead_decrypt (key base_nonce : List Nat) (counter : Nat) (aad ciphertext : List Nat) :
    Option (List Nat) :=
  xaeadOpen key (next_nonce base_nonce counter) aad ciphertext

/-- The HKDF info label `b"globalsend v1"` from `derive_aead`. -/
def infoLabel : List Nat := "globalsend v1".data.map Char.toNat

/-- Rust `derive_aead`: HKDF-SHA256 with no salt over the shared secret,
expanded under the fixed info label into `AEAD_KEY_LEN + AEAD_NONCE_LEN`
bytes, split into the AEAD key and the base nonce. `none` models the
panic the source reaches through `.expect` when expansion fails. -/
def derive_aead (shared_secret : List Nat) : Option (List Nat × List Nat) :=
  match hkdfExpand (hkdfExtract shared_secret) infoLabel (AEAD_KEY_LEN + AEAD_NONCE_LEN) with
  | none => none
  | some okm => some (okm.take AEAD_KEY_LEN, okm.drop AEAD_KEY_LEN)

/-!
X25519 Diffie-Hellman (`DeviceKey::public` / `DeviceKey::ecdh`).
Modelled from the spec: the `x25519_dalek` crate is not under `src/`.
X25519 is scalar multiplication in the commutative group of points of
Curve25519 (RFC 7748); we model the group of points as an arbitrary
monoid written multiplicatively, the base point as a generator `g`, and
scalar multiplication by the clamped secret as a power.
-/

/-- RFC 7748 scalar decoding as used by `x25519_dalek`: interpret 32 bytes
little-endian, clear the three lowest bits and bit 255, and set bit 254. -/
def clampScalar (secret : List Nat) : Nat := 2 ^ 254 + leNum secret % 2 ^ 254 / 8 * 8

/-- Modelled from the spec: `DeviceKey::public` — the public point is the
clamped secret scalar times the curve base point `g`. -/
def dkPublic {M : Type} [Monoid M] (g : M) (secret : List Nat) : M := g ^ clampScalar secret

/-- Modelled from the spec: `DeviceKey::ecdh` — the shared secret is the
clamped own scalar times the peer's public point. -/
def ecdh {M : Type} [Monoid M] (secret : List Nat) (peer : M) : M := peer ^ clampScalar secret

/-! Byte-level lemmas. -/

theorem length_toBEBytes (n c : Nat) : (toBEBytes n c).length = n := by
  induction n generalizing c with
  | zero => rfl
  | succ n ih => simp [toBEBytes, ih]

theorem beNum_toBEBytes (n c : Nat) : beNum (toBEBytes n c) = c % 2 ^ (8 * n) := by
  induction n generalizing c with
  | zero => simp [toBEBytes, beNum, Nat.mod_one]
  | succ n ih =>
    have hshift : c >>> 8 = c / 256 := by
      rw [Nat.shiftRight_eq_div_pow]
    have hfold : beNum (toBEBytes n (c >>> 8) ++ [c % 256]) =
        beNum (toBEBytes n (c >>> 8)) * 256 + c % 256 := by
      simp [beNum, List.foldl_append]
    have hpow : 2 ^ (8 * (n + 1)) = 256 * 2 ^ (8 * n) := by
      rw [Nat.mul_succ, Nat.pow_add]
      ring
    rw [toBEBytes, hfold, ih, hshift, hpow, Nat.mod_mul]
    ring

theorem toBEBytes_inj {c1 c2 : Nat} (h1 : c1 < 2 ^ 64) (h2 : c2 < 2 ^ 64)
    (h : toBEBytes 8 c1 = toBEBytes 8 c2) : c1 = c2 := by
  have hb := congrArg beNum h
  rw [beNum_toBEBytes, beNum_toBEBytes] at hb
  have e1 : c1 % 2 ^ (8 * 8) = c1 := Nat.mod_eq_of_lt (by exact h1)
  have e2 : c2 % 2 ^ (8 * 8) = c2 := Nat.mod_eq_of_lt (by exact h2)
  rw [e1, e2] at hb
  exact hb

theorem zipWith_xor_left_cancel :
    ∀ (a b1 b2 : List Nat), b1.length = a.length → b2.length = a.length →
      List.zipWith Nat.xor a b1 = List.zipWith Nat.xor a b2 → b1 = b2 := by
  intro a
  induction a with
  | nil =>
    intro b1 b2 h1 h2 _
    cases b1 <;> cases b2 <;> simp_all
  | cons x xs ih =>
    intro b1 b2 h1 h2 h
    cases b1 with
    | nil => simp at h1
    | cons y ys =>
      cases b2 with
      | nil => simp at h2
      | cons z zs =>
        simp only [List.zipWith, List.cons.injEq] at h
        have hyz : y = z := by
          have h1 : x ^^^ y = x ^^^ z := h.1
          have h2 := congrArg (fun t => x ^^^ t) h1
          simpa [Nat.xor_cancel_left] using h2
        have : ys = zs := by
          apply ih ys zs
          · simpa using h1
          · simpa using h2
          · exact h.2
        rw [hyz, this]

theorem xorBytes_cancel :
    ∀ (pt ks : List Nat), ks.length = pt.length →
      xorBytes (xorBytes pt ks) ks = pt := by
  intro pt
  induction pt with
  | nil => intro ks _; simp [xorBytes]
  | cons x xs ih =>
    intro ks hk
    cases ks with
    | nil => simp at hk
    | cons k ks' =>
      simp only [xorBytes, List.zipWith, List.cons.injEq]
      constructor
      · exact Nat.xor_cancel_right k x
      · exact ih ks' (by simpa using hk)

theorem length_xorBytes (a b : List Nat) :
    (xorBytes a b).length = min a.length b.length := by
  simp [xorBytes]

/-! Length lemmas for the AEAD layer. -/

theorem length_quarterRound (st : List Nat) (ia ib ic jd : Nat) :
    (quarterRound st ia ib ic jd).length = st.length := by
  simp [quarterRound]

theorem length_doubleRound (st : List Nat) : (doubleRound st).length = st.length := by
  simp [doubleRound, length_quarterRound]

theorem length_iterate_doubleRound (n : Nat) (st : List Nat) :
    (doubleRound^[n] st).length = st.length := by
  induction n with
  | zero => rfl
  | succ n ih => rw [Function.iterate_succ_apply', length_doubleRound, ih]

theorem length_initState (key : List Nat) (ctr : Nat) (nonce : List Nat) :
    (initState key ctr nonce).length = 16 := rfl

theorem length_wordLEBytes (w : Nat) : (wordLEBytes w).length = 4 := rfl

theorem length_wordBEBytes (w : Nat) : (wordBEBytes w).length = 4 := rfl

theorem length_flatten_map_word {f : Nat → List Nat} (hf : ∀ w, (f w).length = 4) :
    ∀ l : List Nat, ((l.map f).flatten).length = 4 * l.length := by
  intro l
  induction l with
  | nil => simp
  | cons x xs ih =>
    simp only [List.map_cons, List.flatten_cons, List.length_append, ih, hf, List.length_cons]
    ring

theorem length_chachaBlockBytes (key : List Nat) (ctr : Nat) (nonce : List Nat) :
    (chachaBlockBytes key ctr nonce).length = 64 := by
  simp only [chachaBlockBytes]
  rw [length_flatten_map_word (fun w => length_wordLEBytes w), List.length_zipWith,
    length_iterate_doubleRound, length_initState]
  rfl

theorem length_chachaBlocks (key nonce : List Nat) :
    ∀ (n ctr : Nat), (chachaBlocks key ctr nonce n).length = 64 * n := by
  intro n
  induction n with
  | zero => intro ctr; rfl
  | succ n ih =>
    intro ctr
    simp only [chachaBlocks, List.length_append, length_chachaBlockBytes, ih]
    ring

theorem length_keystreamBytes (key : List Nat) (ctr : Nat) (nonce : List Nat) (len : Nat) :
    (keystreamBytes key ctr nonce len).length = len := by
  rw [keystreamBytes, List.length_take, length_chachaBlocks]
  have h1 := Nat.div_add_mod (len + 63) 64
  have h2 : (len + 63) % 64 < 64 := Nat.mod_lt _ (by norm_num)
  omega

theorem length_poly1305 (key msg : List Nat) : (poly1305 key msg).length = 16 := by
  simp [poly1305]

/-! The AEAD round trip. -/

theorem ietfOpen_ietfSeal (key nonce aad pt : List Nat) :
    ietfOpen key nonce aad (ietfSeal key nonce aad pt) = some pt := by
  simp only [ietfSeal, ietfOpen]
  have hks : (keystreamBytes key 1 nonce pt.length).length = pt.length :=
    length_keystreamBytes _ _ _ _
  have hbody : (xorBytes pt (keystreamBytes key 1 nonce pt.length)).length = pt.length := by
    rw [length_xorBytes, hks]
    omega
  have htag :
      (poly1305 ((chachaBlockBytes key 0 nonce).take 32)
        (macData aad (xorBytes pt (keystreamBytes key 1 nonce pt.length)))).length = 16 :=
    length_poly1305 _ _
  have hct :
      (xorBytes pt (keystreamBytes key 1 nonce pt.length) ++
        poly1305 ((chachaBlockBytes key 0 nonce).take 32)
          (macData aad (xorBytes pt (keystreamBytes key 1 nonce pt.length)))).length =
        pt.length + 16 := by
    rw [List.length_append, hbody, htag]
  rw [if_neg (by omega)]
  rw [hct, Nat.add_sub_cancel]
  rw [List.take_left' hbody, List.drop_left' hbody]
  rw [if_pos rfl]
  rw [hbody]
  rw [xorBytes_cancel pt _ hks]

theorem xaeadOpen_xaeadSeal (key nonce24 aad pt : List Nat) :
    xaeadOpen key nonce24 aad (xaeadSeal key nonce24 aad pt) = some pt := by
  simp only [xaeadSeal, xaeadOpen]
  exact ietfOpen_ietfSeal _ _ _ _

/-! Length lemmas for the SHA-256 / HKDF layer. -/

theorem length_shaCompress (hv block : List Nat) (hh : hv.length = 8) :
    (shaCompress hv block).length = 8 := by
  have hst : ∀ (l : List Nat) (st : List Nat), st.length = 8 →
      (l.foldl (fun st i =>
        let a := st.getD 0 0
        let b := st.getD 1 0
        let c := st.getD 2 0
        let d := st.getD 3 0
        let e := st.getD 4 0
        let f := st.getD 5 0
        let g := st.getD 6 0
        let hh := st.getD 7 0
        let ch := Nat.xor (e &&& f) (Nat.xor e 0xffffffff &&& g)
        let maj := Nat.xor (Nat.xor (a &&& b) (a &&& c)) (b &&& c)
        let t1 := w32 (hh + bsig1 e + ch + sha256K.getD i 0 +
          ((List.range 48).foldl (fun ws _ =>
            let n := ws.length
            ws ++ [w32 (ws.getD (n - 16) 0 + ssig0 (ws.getD (n - 15) 0) +
              ws.getD (n - 7) 0 + ssig1 (ws.getD (n - 2) 0))])
            ((List.range 16).map (fun i => beWord block i))).getD i 0)
        let t2 := w32 (bsig0 a + maj)
        [w32 (t1 + t2), a, b, c, w32 (d + t1), e, f, g]) st).length = 8 := by
    intro l
    induction l with
    | nil => intro st h; simpa using h
    | cons x xs ih =>
      intro st h
      rw [List.foldl_cons]
      exact ih _ rfl
  simp only [shaCompress]
  rw [List.length_zipWith, hh, hst _ hv hh]
  rfl

theorem length_sha256 (msg : List Nat) : (sha256 msg).length = 32 := by
  have hfold : ∀ (bs : List (List Nat)) (hv : List Nat), hv.length = 8 →
      (bs.foldl shaCompress hv).length = 8 := by
    intro bs
    induction bs with
    | nil => intro hv hh; simpa using hh
    | cons b bs ih =>
      intro hv hh
      rw [List.foldl_cons]
      exact ih _ (length_shaCompress _ _ hh)
  simp only [sha256]
  rw [length_flatten_map_word (fun w => length_wordBEBytes w), hfold _ sha256Init rfl]

theorem length_hmacSha256 (key msg : List Nat) : (hmacSha256 key msg).length = 32 := by
  simp only [hmacSha256]
  exact length_sha256 _

theorem length_hkdfBlocks (prk info : List Nat) :
    ∀ (n : Nat) (prev : List Nat) (i : Nat), (hkdfBlocks prk info prev i n).length = 32 * n := by
  intro n
  induction n with
  | zero => intro prev i; rfl
  | succ n ih =>
    intro prev i
    simp only [hkdfBlocks, List.length_append, length_hmacSha256, ih]
    ring

theorem hkdfExpand_ok (prk info : List Nat) (len : Nat) (h : len ≤ 255 * 32) :
    ∃ okm, hkdfExpand prk info len = some okm ∧ okm.length = len := by
  refine ⟨(hkdfBlocks prk info [] 1 ((len + 31) / 32)).take len, ?_, ?_⟩
  · rw [hkdfExpand, if_neg (by omega)]
  · rw [List.length_take, length_hkdfBlocks]
    have h1 := Nat.div_add_mod (len + 31) 32
    have h2 : (len + 31) % 32 < 32 := Nat.mod_lt _ (by norm_num)
    omega

/-! Pointwise lemmas about list indexing used for the nonce construction. -/

theorem getD_zipWith_xor (a b : List Nat) (j : Nat) (hja : j < a.length) (hjb : j < b.length) :
    (List.zipWith Nat.xor a b).getD j 0 = Nat.xor (a.getD j 0) (b.getD j 0) := by
  rw [List.getD_eq_getElem?_getD, List.getElem?_zipWith,
    List.getElem?_eq_getElem hja, List.getElem?_eq_getElem hjb]
  rw [List.getD_eq_getElem?_getD, List.getD_eq_getElem?_getD,
    List.getElem?_eq_getElem hja, List.getElem?_eq_getElem hjb]
  rfl

theorem getD_drop (l : List Nat) (i j : Nat) :
    (l.drop i).getD j 0 = l.getD (i + j) 0 := by
  rw [List.getD_eq_getElem?_getD, List.getElem?_drop, List.getD_eq_getElem?_getD]

theorem getD_take (l : List Nat) (n j : Nat) (h : j < n) :
    (l.take n).getD j 0 = l.getD j 0 := by
  rw [List.getD_eq_getElem?_getD, List.getElem?_take, if_pos h, List.getD_eq_getElem?_getD]

/-! Claim theorems. -/

/-- C1: for every 32-byte key, 24-byte base nonce, 64-bit counter, associated
data and plaintext, decrypting the result of encrypting that plaintext with
the same key, base nonce, counter and associated data succeeds and returns
exactly the original plaintext. -/
theorem aead_roundtrip (key base_nonce : List Nat) (counter : Nat) (aad plaintext : List Nat)
    (hkey : key.length = AEAD_KEY_LEN) (hbase : base_nonce.length = AEAD_NONCE_LEN)
    (hctr : counter < 2 ^ 64) :
    aead_decrypt key base_nonce counter aad
      (aead_encrypt key base_nonce counter aad plaintext) = some plaintext := by
  simp only [aead_encrypt, aead_decrypt]
  exact xaeadOpen_xaeadSeal _ _ _ _

/-- Concrete round trip at the all-zero 32-byte key, all-zero 24-byte base
nonce and counter 1. -/
theorem aead_roundtrip_witness :
    aead_decrypt (List.replicate 32 0) (List.replicate 24 0) 1 []
      (aead_encrypt (List.replicate 32 0) (List.replicate 24 0) 1 [] []) = some [] :=
  aead_roundtrip _ _ _ _ _ (by decide) (by decide) (by decide)

/-- C2: for a fixed base nonce, the per-message nonce derivation is injective
over 64-bit counters: distinct counters give distinct nonces. -/
theorem next_nonce_injective (base_nonce : List Nat) (c1 c2 : Nat)
    (hbase : base_nonce.length = AEAD_NONCE_LEN)
    (h1 : c1 < 2 ^ 64) (h2 : c2 < 2 ^ 64) (hne : c1 ≠ c2) :
    next_nonce base_nonce c1 ≠ next_nonce base_nonce c2 := by
  intro h
  apply hne
  apply toBEBytes_inj h1 h2
  simp only [next_nonce] at h
  have hdrop : (base_nonce.drop (AEAD_NONCE_LEN - 8)).length = 8 := by
    rw [List.length_drop, hbase]
    decide
  apply zipWith_xor_left_cancel (base_nonce.drop (AEAD_NONCE_LEN - 8)) _ _
    (by rw [length_toBEBytes, hdrop]) (by rw [length_toBEBytes, hdrop])
  exact List.append_cancel_left h

/-- Distinct nonces for counters 0 and 1 over the all-zero base nonce. -/
theorem next_nonce_injective_witness :
    next_nonce (List.replicate 24 0) 0 ≠ next_nonce (List.replicate 24 0) 1 :=
  next_nonce_injective _ 0 1 (by decide) (by decide) (by decide) (by decide)

/-- C5: the per-message nonce used by both `aead_encrypt` and `aead_decrypt`
(both call `next_nonce`) is 24 bytes long, keeps the leading 16 bytes of the
base nonce unchanged, and combines the big-endian 8-byte encoding of the
counter into the trailing 8 bytes by bitwise exclusive-or. -/
theorem next_nonce_bytes (base_nonce : List Nat) (counter : Nat)
    (hbase : base_nonce.length = AEAD_NONCE_LEN) :
    (next_nonce base_nonce counter).length = AEAD_NONCE_LEN ∧
    (∀ i, i < 16 → (next_nonce base_nonce counter).getD i 0 = base_nonce.getD i 0) ∧
    (∀ i, 16 ≤ i → i < 24 → (next_nonce base_nonce counter).getD i 0 =
      Nat.xor (base_nonce.getD i 0) ((toBEBytes 8 counter).getD (i - 16) 0)) := by
  have e1 : AEAD_NONCE_LEN - 8 = 16 := rfl
  have htake : (base_nonce.take 16).length = 16 := by
    rw [List.length_take, hbase]
    decide
  have hdrop : (base_nonce.drop 16).length = 8 := by
    rw [List.length_drop, hbase]
    decide
  refine ⟨?_, ?_, ?_⟩
  · simp only [next_nonce, e1]
    rw [List.length_append, htake, List.length_zipWith, length_toBEBytes, hdrop]
    decide
  · intro i hi
    simp only [next_nonce, e1]
    rw [List.getD_append _ _ _ i (by rw [htake]; exact hi)]
    exact getD_take _ _ _ hi
  · intro i h16 h24
    simp only [next_nonce, e1]
    rw [List.getD_append_right _ _ _ i (by rw [htake]; exact h16)]
    rw [htake]
    rw [getD_zipWith_xor _ _ _ (by rw [hdrop]; omega) (by rw [length_toBEBytes]; omega)]
    rw [getD_drop]
    have h16i : 16 + (i - 16) = i := by omega
    rw [h16i]

/-- Byte 23 of the nonce for base `List.range 24` and counter 5 is the XOR of
base byte 23 with the last big-endian counter byte. -/
theorem next_nonce_bytes_witness :
    (next_nonce (List.range 24) 5).getD 23 0 =
      Nat.xor ((List.range 24).getD 23 0) ((toBEBytes 8 5).getD 7 0) :=
  (next_nonce_bytes (List.range 24) 5 (by decide)).2.2 23 (by decide) (by decide)

/-- C7: decrypting a ciphertext shorter than the 16-byte tag always fails
with an error; no plaintext is ever returned. -/
theorem aead_decrypt_short (key base_nonce : List Nat) (counter : Nat) (aad ct : List Nat)
    (h : ct.length < 16) :
    aead_decrypt key base_nonce counter aad ct = none := by
  simp only [aead_decrypt, xaeadOpen, ietfOpen]
  rw [if_pos h]

/-- Decrypting a 3-byte ciphertext fails. -/
theorem aead_decrypt_short_witness :
    aead_decrypt [] [] 0 [] [1, 2, 3] = none :=
  aead_decrypt_short _ _ _ _ _ (by decide)

/-- C6: key derivation runs HKDF (zero-filled salt, i.e. no salt) with the
fixed info label "globalsend v1", producing exactly 32 + 24 = 56 bytes of
output keying material, and returns the leading 32 bytes as the AEAD key and
the trailing 24 bytes as the base nonce; as a pure function of the shared
secret it is deterministic. -/
theorem derive_aead_spec (shared_secret : List Nat) :
    ∃ okm,
      hkdfExpand (hkdfExtract shared_secret) infoLabel (AEAD_KEY_LEN + AEAD_NONCE_LEN)
          = some okm ∧
      okm.length = 56 ∧
      derive_aead shared_secret = some (okm.take 32, okm.drop 32) ∧
      (okm.take 32).length = 32 ∧ (okm.drop 32).length = 24 ∧
      infoLabel = [103, 108, 111, 98, 97, 108, 115, 101, 110, 100, 32, 118, 49] := by
  obtain ⟨okm, hsome, hlen⟩ :=
    hkdfExpand_ok (hkdfExtract shared_secret) infoLabel (AEAD_KEY_LEN + AEAD_NONCE_LEN)
      (by decide)
  have hlen56 : okm.length = 56 := hlen
  refine ⟨okm, hsome, hlen56, ?_, ?_, ?_, ?_⟩
  · simp only [derive_aead, hsome]
    rfl
  · rw [List.length_take, hlen56]
    decide
  · rw [List.length_drop, hlen56]
  · decide

/-- C9: the HKDF-Expand length check can never fire at the fixed output
length `AEAD_KEY_LEN + AEAD_NONCE_LEN = 56`: for every PRK and every info
label the expansion succeeds, so the `expect` in `derive_aead` cannot panic. -/
theorem hkdfExpand_total (prk info : List Nat) :
    (hkdfExpand prk info (AEAD_KEY_LEN + AEAD_NONCE_LEN)).isSome = true := by
  rw [hkdfExpand, if_neg (by decide)]
  rfl

/-- C10: `derive_aead` accepts a shared-secret byte slice of any length —
it performs no length validation and succeeds on every input, including the
empty slice and slices shorter or longer than 32 bytes. -/
theorem derive_aead_total (shared_secret : List Nat) :
    ∃ kn, derive_aead shared_secret = some kn := by
  obtain ⟨okm, hsome, -⟩ :=
    hkdfExpand_ok (hkdfExtract shared_secret) infoLabel (AEAD_KEY_LEN + AEAD_NONCE_LEN)
      (by decide)
  exact ⟨(okm.take AEAD_KEY_LEN, okm.drop AEAD_KEY_LEN), by simp only [derive_aead, hsome]⟩

/-- C4: ECDH is symmetric — `A.ecdh(B.public())` and `B.ecdh(A.public())`
yield the same shared secret, for any two secret scalars over any monoid of
curve points with base point `g`. -/
theorem ecdh_symm {M : Type} [Monoid M] (g : M) (a b : List Nat) :
    ecdh a (dkPublic g b) = ecdh b (dkPublic g a) := by
  simp only [ecdh, dkPublic]
  exact pow_right_comm g (clampScalar b) (clampScalar a)

end Globalsend

